import Mathlib

/-!
Verification of the rgb-lightning-node peer-transport layer (src/tor.rs)
and its hold-invoice lifecycle, via a shallow embedding in Lean.

Rust strings are embedded as `List Char`; Rust's `str::split(sep)` on a
single-character separator is `List.splitOn sep`; `u16` values are `Nat`
with explicit bounds checks matching Rust's checked parsing.
-/

/-- Error type of the node API.  The variants `InvalidPeerInfo` and
`FailedPeerConnection` are the ones used in src/tor.rs.  The remaining
variants are modelled from the spec error taxonomy (invoice-state errors
and the bootstrap error named by the spec). -/
inductive APIError
  | InvalidPeerInfo (msg : String)
  | FailedPeerConnection
  | InvalidInvoiceState
  | InvalidPreimage
  | InvoiceNotFound
  | InvoiceAlreadyExists
  | BootstrapFailed
  deriving DecidableEq, Repr

/-- Whether an `APIError` is the `InvalidPeerInfo` variant (with any message). -/
def APIError.isInvalidPeerInfo : APIError → Bool
  | .InvalidPeerInfo _ => true
  | _ => false

/-- The decimal value of an ASCII digit character, as accepted by Rust's
`char::to_digit(10)`; `none` on every non-digit. -/
def digitVal (c : Char) : Option Nat :=
  if '0' ≤ c ∧ c ≤ '9' then some (c.toNat - 48) else none

/-- Left-to-right accumulation of decimal digits with the `u16` overflow
check of Rust's checked multiply/add: the accumulator may never exceed
65535. -/
def parseDigitsAcc : List Char → Nat → Option Nat
  | [], acc => some acc
  | c :: cs, acc =>
    match digitVal c with
    | none => none
    | some d => if 65535 < acc * 10 + d then none else parseDigitsAcc cs (acc * 10 + d)

/-- Embedding of Rust's `str::parse::<u16>()`: an optional leading plus
sign followed by a non-empty run of ASCII digits whose value fits in 16
bits. -/
def parseU16 (s : List Char) : Option Nat :=
  match s with
  | [] => none
  | '+' :: rest => if rest.isEmpty then none else parseDigitsAcc rest 0
  | _ => parseDigitsAcc s 0

/-- Embedding of `parse_peer_address` from src/tor.rs.  Splits the input
on the single at sign, the remainder on the single colon, and parses the
port as a `u16`.  The wrong-number-of-parts failures return
`FailedPeerConnection`; only the port-parse failure returns
`InvalidPeerInfo`, exactly as in the source. -/
def parse_peer_address (peer_info : List Char) : Except APIError (List Char × Nat) :=
  let parts := peer_info.splitOn '@'
  if parts.length ≠ 2 then .error .FailedPeerConnection
  else
    let addr_parts := (parts.getD 1 []).splitOn ':'
    if addr_parts.length ≠ 2 then .error .FailedPeerConnection
    else
      let host := addr_parts.getD 0 []
      match parseU16 (addr_parts.getD 1 []) with
      | none => .error (.InvalidPeerInfo ("Invalid port in peer address"))
      | some port => .ok (host, port)

/-- The literal suffix identifying onion addresses. -/
def onionSuffix : List Char := ['.', 'o', 'n', 'i', 'o', 'n']

/-- Embedding of `TorConnectionManager::is_onion_address`:
`host.ends_with(".onion")`. -/
def is_onion_address (host : List Char) : Bool :=
  onionSuffix.isSuffixOf host

/-- Embedding of the `TorConnectionManager` struct of src/tor.rs.  The
bootstrapped Tor client is an external value of abstract type `α`. -/
structure TorConnectionManager (α : Type) where
  tor_client : α
  socks_port : Option Nat
  deriving DecidableEq, Repr

/-- Embedding of `TorConnectionManager::new`.  The external call
`TorClient::create_bootstrapped` is passed in as its result
(`Except String α`); on bootstrap failure the source maps the error to
`APIError::InvalidPeerInfo("Failed to bootstrap Tor client: {e}")` and
returns it, so no manager value is produced. -/
def TorConnectionManager.new {α : Type} (_tor_data_dir : Option (List Char))
    (socks_port : Option Nat) (bootstrap : Except String α) :
    Except APIError (TorConnectionManager α) :=
  match bootstrap with
  | .error e => .error (.InvalidPeerInfo ("Failed to bootstrap Tor client: " ++ e))
  | .ok c => .ok ⟨c, socks_port⟩

/-- The connection strategy chosen by `connect_through_tor`: the three
branches of the source, with the arguments each branch passes on.  The
SOCKS branch records the proxy host string the source formats
(`"127.0.0.1:{socks_port}"`). -/
inductive TorConnectStrategy
  | toOnion (host : List Char) (port : Nat)
  | viaSocks (proxy_host : List Char) (proxy_port : Nat) (host : List Char) (port : Nat)
  | directViaTor (host : List Char) (port : Nat)
  deriving DecidableEq, Repr

/-- The loopback host used for the SOCKS proxy in src/tor.rs. -/
def localhostStr : List Char := ['1', '2', '7', '.', '0', '.', '0', '.', '1']

/-- Embedding of the branch selection of
`TorConnectionManager::connect_through_tor`: onion suffix first, then a
configured SOCKS port, then Arti's direct circuit connect.  The actual
dialing is external I/O; the function returns which strategy is taken
with the arguments the source passes to it. -/
def connect_through_tor {α : Type} (m : TorConnectionManager α)
    (host : List Char) (port : Nat) : TorConnectStrategy :=
  if is_onion_address host then .toOnion host port
  else
    match m.socks_port with
    | some sp => .viaSocks localhostStr sp host port
    | none => .directViaTor host port

/-- The ASCII character of a decimal digit. -/
def digitChar (d : Nat) : Char := Char.ofNat (48 + d)

/-- The canonical decimal rendering of a natural number (most significant
digit first), as produced by Rust's integer `to_string`. -/
def toDecimal (n : Nat) : List Char :=
  if _h : n < 10 then [digitChar n]
  else toDecimal (n / 10) ++ [digitChar (n % 10)]
decreasing_by exact Nat.div_lt_self (by omega) (by omega)

/-- The canonical wire form `pubkey@host:port` named by the comment on
`parse_peer_address` in src/tor.rs. -/
def serialize_peer_address (pubkey host : List Char) (port : Nat) : List Char :=
  pubkey ++ '@' :: (host ++ ':' :: toDecimal port)

/-- Modelled from the spec: the invoice lifecycle states
`Pending | Held | Succeeded | Failed` (the invoice implementation itself
is outside the excerpt; only its integration tests are present). -/
inductive InvoiceStatus
  | Pending
  | Held
  | Succeeded
  | Failed
  deriving DecidableEq, BEq, Repr

/-- Modelled from the spec: a hold-invoice record.  Payment hashes,
preimages and HTLC references are abstracted to `Nat`; a held HTLC is a
`(reference, amount_msat)` pair. -/
structure HodlInvoice where
  payment_hash : Nat
  amount_msat : Option Nat
  expiry : Nat
  status : InvoiceStatus
  held_htlcs : List (Nat × Nat)
  deriving DecidableEq, Repr

/-- Total amount carried by a set of held HTLCs. -/
def htlcTotal (htlcs : List (Nat × Nat)) : Nat :=
  (htlcs.map Prod.snd).sum

/-- Modelled from the spec: the amount-matching policy for holding — the
sum of the arrived parts must reach the recorded minimum amount when one
is fixed. -/
def amountSatisfied (amount_msat : Option Nat) (htlcs : List (Nat × Nat)) : Bool :=
  match amount_msat with
  | some amt => decide (amt ≤ htlcTotal htlcs)
  | none => true

/-- Modelled from the spec: `settle(hash, preimage)`.  Precondition
checks in order: the invoice must be `Held` (otherwise
`InvalidInvoiceState`), and the supplied preimage must hash to the
recorded payment hash (otherwise `InvalidPreimage`).  On success every
held HTLC is released and the status becomes `Succeeded`.  The hash
function is a parameter standing for sha256. -/
def settle (sha256 : Nat → Nat) (inv : HodlInvoice) (preimage : Nat) :
    Except APIError HodlInvoice :=
  if inv.status ≠ .Held then .error .InvalidInvoiceState
  else if sha256 preimage ≠ inv.payment_hash then .error .InvalidPreimage
  else .ok { inv with status := .Succeeded, held_htlcs := [] }

/-- Modelled from the spec: `cancel(hash)`.  Allowed from `Pending` or
`Held`; fails every held HTLC and moves to `Failed`; rejected on a
terminal invoice. -/
def cancel (inv : HodlInvoice) : Except APIError HodlInvoice :=
  if inv.status = .Pending ∨ inv.status = .Held then
    .ok { inv with status := .Failed, held_htlcs := [] }
  else .error .InvalidInvoiceState

/-- Modelled from the spec: the `hold` transition taken by the HODL
interceptor when matching HTLCs have arrived — only from `Pending`, with
a non-empty HTLC set satisfying the amount policy. -/
def hold (inv : HodlInvoice) (htlcs : List (Nat × Nat)) :
    Except APIError HodlInvoice :=
  if inv.status = .Pending ∧ htlcs ≠ [] ∧ amountSatisfied inv.amount_msat htlcs = true then
    .ok { inv with status := .Held, held_htlcs := htlcs }
  else .error .InvalidInvoiceState

/-- Modelled from the spec: the background `expire` check — same effect
as cancel, but only when the deadline has passed. -/
def expire (now : Nat) (inv : HodlInvoice) : Except APIError HodlInvoice :=
  if (inv.status = .Pending ∨ inv.status = .Held) ∧ inv.expiry < now then
    .ok { inv with status := .Failed, held_htlcs := [] }
  else .error .InvalidInvoiceState

/-- The operations that can be applied to an existing invoice. -/
inductive InvoiceOp
  | settleOp (preimage : Nat)
  | cancelOp
  | holdOp (htlcs : List (Nat × Nat))
  | expireOp (now : Nat)

/-- Dispatch one operation on an invoice. -/
def applyOp (sha256 : Nat → Nat) (inv : HodlInvoice) : InvoiceOp → Except APIError HodlInvoice
  | .settleOp p => settle sha256 inv p
  | .cancelOp => cancel inv
  | .holdOp hs => hold inv hs
  | .expireOp now => expire now inv

/-- The invoice state after an operation: a rejected operation leaves the
registry record unchanged. -/
def runOp (sha256 : Nat → Nat) (inv : HodlInvoice) (op : InvoiceOp) : HodlInvoice :=
  match applyOp sha256 inv op with
  | .ok inv2 => inv2
  | .error _ => inv

/-- The allowed status edges of the lifecycle state machine (reflexive
edges stand for an operation that does not change the status). -/
def allowedEdge (a b : InvoiceStatus) : Bool :=
  a == b ||
  (a == .Pending && b == .Held) ||
  (a == .Held && b == .Succeeded) ||
  (a == .Held && b == .Failed) ||
  (a == .Pending && b == .Failed)

/-- Whether a status is terminal. -/
def InvoiceStatus.isTerminal : InvoiceStatus → Bool
  | .Succeeded => true
  | .Failed => true
  | _ => false

/-- HTTP-level error classes. -/
inductive ErrorClass
  | clientError
  | serverError
  deriving DecidableEq, Repr

/-- Modelled from the spec: invalid-state, invalid-preimage and
malformed-input errors map to the client-error class; internal transport
and bootstrap failures map to the server-error class. -/
def errorClass : APIError → ErrorClass
  | .InvalidPeerInfo _ => .clientError
  | .InvalidInvoiceState => .clientError
  | .InvalidPreimage => .clientError
  | .InvoiceNotFound => .clientError
  | .InvoiceAlreadyExists => .clientError
  | .FailedPeerConnection => .serverError
  | .BootstrapFailed => .serverError

/-! ### Shared lemmas on splitting, digits and suffixes -/

theorem splitOn_of_not_mem {c : Char} {xs : List Char} (h : c ∉ xs) :
    xs.splitOn c = [xs] := by
  apply List.splitOnP_eq_single
  intro x hx
  simp only [beq_iff_eq]
  exact fun he => h (he ▸ hx)

theorem splitOn_append_cons {c : Char} {xs : List Char} (h : c ∉ xs) (as : List Char) :
    (xs ++ c :: as).splitOn c = xs :: as.splitOn c := by
  apply List.splitOnP_first
  · intro x hx
    simp only [beq_iff_eq]
    exact fun he => h (he ▸ hx)
  · simp

theorem length_splitOn (c : Char) (xs : List Char) :
    (xs.splitOn c).length = xs.count c + 1 := by
  induction xs with
  | nil => rfl
  | cons x xs ih =>
    show ((x :: xs).splitOnP (· == c)).length = _
    rw [List.splitOnP_cons]
    by_cases hx : x = c
    · subst hx
      simp only [beq_self_eq_true, if_true, List.length_cons, List.count_cons_self]
      exact congrArg (· + 1) ih
    · have hxc : (x == c) = false := beq_false_of_ne hx
      simp only [hxc, if_false, List.length_modifyHead, List.count_cons, hxc]
      simpa using ih

theorem digitVal_digitChar : ∀ d, d < 10 → digitVal (digitChar d) = some d := by
  decide

theorem digitChar_bounds : ∀ d, d < 10 → '0' ≤ digitChar d ∧ digitChar d ≤ '9' := by
  decide

theorem toDecimal_mem_digit (n : Nat) : ∀ c ∈ toDecimal n, '0' ≤ c ∧ c ≤ '9' := by
  induction n using Nat.strong_induction_on with
  | _ n ih =>
    rw [toDecimal]
    split
    · intro c hc
      rw [List.mem_singleton] at hc
      subst hc
      exact digitChar_bounds n (by omega)
    · intro c hc
      rcases List.mem_append.mp hc with h | h
      · exact ih (n / 10) (Nat.div_lt_self (by omega) (by omega)) c h
      · rw [List.mem_singleton] at h
        subst h
        exact digitChar_bounds (n % 10) (Nat.mod_lt _ (by omega))

theorem toDecimal_ne_nil (n : Nat) : toDecimal n ≠ [] := by
  rw [toDecimal]
  split <;> simp

theorem parseDigitsAcc_append (a b : List Char) (acc : Nat) :
    parseDigitsAcc (a ++ b) acc = (parseDigitsAcc a acc).bind (parseDigitsAcc b) := by
  induction a generalizing acc with
  | nil => rfl
  | cons c cs ih =>
    rw [List.cons_append, parseDigitsAcc, parseDigitsAcc]
    cases hdc : digitVal c with
    | none => rfl
    | some d =>
      simp only
      split
      · rfl
      · exact ih _

theorem parseDigitsAcc_toDecimal (n : Nat) (hn : n ≤ 65535) :
    parseDigitsAcc (toDecimal n) 0 = some n := by
  induction n using Nat.strong_induction_on with
  | _ n ih =>
    rw [toDecimal]
    split
    · rw [parseDigitsAcc, digitVal_digitChar n (by omega)]
      simp only
      rw [if_neg (by omega), parseDigitsAcc]
      congr 1
      omega
    · rw [parseDigitsAcc_append,
        ih (n / 10) (Nat.div_lt_self (by omega) (by omega)) (by omega),
        Option.some_bind, parseDigitsAcc, digitVal_digitChar (n % 10) (Nat.mod_lt _ (by omega))]
      simp only
      rw [if_neg (by omega), parseDigitsAcc]
      congr 1
      omega

theorem parseU16_of_head_ne_plus {c : Char} (cs : List Char) (h : c ≠ '+') :
    parseU16 (c :: cs) = parseDigitsAcc (c :: cs) 0 := by
  rw [parseU16.eq_def]
  split
  · rename_i heq
    cases heq
  · rename_i heq
    rw [List.cons.injEq] at heq
    exact absurd heq.1 h
  · rfl

theorem parseU16_toDecimal (n : Nat) (hn : n ≤ 65535) :
    parseU16 (toDecimal n) = some n := by
  cases htd : toDecimal n with
  | nil => exact absurd htd (toDecimal_ne_nil n)
  | cons c cs =>
    have hcd : '0' ≤ c ∧ c ≤ '9' :=
      toDecimal_mem_digit n c (htd ▸ List.mem_cons_self c cs)
    have hcp : c ≠ '+' := by
      intro he
      subst he
      exact absurd hcd (by decide)
    rw [parseU16_of_head_ne_plus cs hcp, ← htd]
    exact parseDigitsAcc_toDecimal n hn

theorem parseDigitsAcc_mem_digit {l : List Char} {acc v : Nat}
    (h : parseDigitsAcc l acc = some v) : ∀ c ∈ l, '0' ≤ c ∧ c ≤ '9' := by
  induction l generalizing acc with
  | nil =>
    intro c hc
    cases hc
  | cons x xs ih =>
    intro c hc
    rw [parseDigitsAcc] at h
    cases hdx : digitVal x with
    | none =>
      rw [hdx] at h
      cases h
    | some d =>
      rw [hdx] at h
      simp only at h
      split at h
      · cases h
      · rcases List.mem_cons.mp hc with he | hm
        · subst he
          rw [digitVal] at hdx
          by_cases hb : '0' ≤ c ∧ c ≤ '9'
          · exact hb
          · rw [if_neg hb] at hdx
            cases hdx
        · exact ih h c hm

theorem parseU16_not_sep {l : List Char} {v : Nat} (h : parseU16 l = some v) :
    '@' ∉ l ∧ ':' ∉ l := by
  rw [parseU16.eq_def] at h
  split at h
  · cases h
  · rename_i rest
    split at h
    · cases h
    · have hd := parseDigitsAcc_mem_digit h
      refine ⟨fun hm => ?_, fun hm => ?_⟩ <;> rcases List.mem_cons.mp hm with he | hmm
      · cases he
      · exact absurd (hd _ hmm) (by decide)
      · cases he
      · exact absurd (hd _ hmm) (by decide)
  · have hd := parseDigitsAcc_mem_digit h
    exact ⟨fun hm => absurd (hd _ hm) (by decide),
           fun hm => absurd (hd _ hm) (by decide)⟩

/-! ### Claim theorems -/

/-- C7: `is_onion_address host` returns true exactly when `host` ends
with the literal suffix `.onion` — equivalently, when `host` is some
prefix followed by `.onion` — and hence only for strings of length at
least 6; no other property of the address is consulted. -/
theorem is_onion_address_iff_suffix (host : List Char) :
    (is_onion_address host = true ↔ ∃ pre, host = pre ++ onionSuffix) ∧
    (is_onion_address host = true → 6 ≤ host.length) := by
  have hiff : is_onion_address host = true ↔ ∃ pre, host = pre ++ onionSuffix := by
    rw [is_onion_address, List.isSuffixOf_iff_suffix]
    constructor
    · rintro ⟨t, ht⟩
      exact ⟨t, ht.symm⟩
    · rintro ⟨t, ht⟩
      exact ⟨t, ht.symm⟩
  refine ⟨hiff, fun h => ?_⟩
  rcases hiff.mp h with ⟨pre, hp⟩
  subst hp
  rw [List.length_append]
  simp [onionSuffix]

theorem is_onion_address_iff_suffix_witness :
    is_onion_address ['a', '.', 'o', 'n', 'i', 'o', 'n'] = true ∧
    (∃ pre, ['a', '.', 'o', 'n', 'i', 'o', 'n'] = pre ++ onionSuffix) ∧
    6 ≤ List.length ['a', '.', 'o', 'n', 'i', 'o', 'n'] :=
  ⟨by decide,
   (is_onion_address_iff_suffix ['a', '.', 'o', 'n', 'i', 'o', 'n']).1.mp (by decide),
   (is_onion_address_iff_suffix ['a', '.', 'o', 'n', 'i', 'o', 'n']).2 (by decide)⟩

/-- C4: `connect_through_tor` picks its strategy in the fixed source
order: a host ending in `.onion` is connected through the embedded onion
client regardless of any configured SOCKS port; otherwise a configured
SOCKS port dials through the local SOCKS5 proxy at 127.0.0.1 on that
port; otherwise the onion client's general circuit connect is used. -/
theorem connect_through_tor_policy {α : Type} (m : TorConnectionManager α)
    (host : List Char) (port : Nat) :
    (is_onion_address host = true →
      connect_through_tor m host port = .toOnion host port) ∧
    (∀ sp, is_onion_address host = false → m.socks_port = some sp →
      connect_through_tor m host port = .viaSocks localhostStr sp host port) ∧
    (is_onion_address host = false → m.socks_port = none →
      connect_through_tor m host port = .directViaTor host port) := by
  refine ⟨fun h => ?_, fun sp h hs => ?_, fun h hs => ?_⟩ <;>
    rw [connect_through_tor]
  · rw [if_pos h]
  · rw [if_neg (by simp [h]), hs]
  · rw [if_neg (by simp [h]), hs]

theorem connect_through_tor_policy_witness :
    connect_through_tor (⟨(), some 9050⟩ : TorConnectionManager Unit)
      ['a', '.', 'o', 'n', 'i', 'o', 'n'] 1 = .toOnion ['a', '.', 'o', 'n', 'i', 'o', 'n'] 1 ∧
    connect_through_tor (⟨(), some 9050⟩ : TorConnectionManager Unit) ['a'] 2 =
      .viaSocks localhostStr 9050 ['a'] 2 ∧
    connect_through_tor (⟨(), none⟩ : TorConnectionManager Unit) ['a'] 3 =
      .directViaTor ['a'] 3 :=
  ⟨(connect_through_tor_policy ⟨(), some 9050⟩ ['a', '.', 'o', 'n', 'i', 'o', 'n'] 1).1 (by decide),
   (connect_through_tor_policy ⟨(), some 9050⟩ ['a'] 2).2.1 9050 (by decide) rfl,
   (connect_through_tor_policy ⟨(), none⟩ ['a'] 3).2.2 (by decide) rfl⟩

/-- C6 (amended): when the external bootstrap fails,
`TorConnectionManager::new` returns an error and never a manager — but
the error is `InvalidPeerInfo` carrying the message
`Failed to bootstrap Tor client: <cause>`, not a dedicated bootstrap
variant; a manager is produced exactly when bootstrap succeeds. -/
theorem tor_manager_new_spec (α : Type) (td : Option (List Char)) (sp : Option Nat) :
    (∀ e : String, TorConnectionManager.new td sp (.error e : Except String α) =
      .error (.InvalidPeerInfo ("Failed to bootstrap Tor client: " ++ e))) ∧
    (∀ c : α, TorConnectionManager.new td sp (.ok c : Except String α) = .ok ⟨c, sp⟩) :=
  ⟨fun _ => rfl, fun _ => rfl⟩

/-- C6 counterexample: at a concrete bootstrap failure the surfaced error
is the `InvalidPeerInfo` variant, which is distinct from the
`BootstrapFailed` variant the claim names. -/
theorem tor_manager_new_error_counterexample :
    TorConnectionManager.new none none (.error "network unreachable" : Except String Unit) =
      .error (.InvalidPeerInfo ("Failed to bootstrap Tor client: network unreachable")) ∧
    APIError.InvalidPeerInfo ("Failed to bootstrap Tor client: network unreachable") ≠
      APIError.BootstrapFailed := by
  refine ⟨?_, by decide⟩
  rfl

theorem parse_peer_address_eval (pre suf : List Char) (hpre : '@' ∉ pre) (hsuf : '@' ∉ suf) :
    parse_peer_address (pre ++ '@' :: suf) =
      (if (suf.splitOn ':').length ≠ 2 then .error .FailedPeerConnection
       else
         match parseU16 ((suf.splitOn ':').getD 1 []) with
         | none => .error (.InvalidPeerInfo ("Invalid port in peer address"))
         | some port => .ok ((suf.splitOn ':').getD 0 [], port)) := by
  simp only [parse_peer_address, splitOn_append_cons hpre suf, splitOn_of_not_mem hsuf]
  rw [if_neg (by simp)]
  simp only [List.getD_cons_succ, List.getD_cons_zero]

/-- C5 counterexample: on an input with no at sign the split yields one
part and `parse_peer_address` fails — but with `FailedPeerConnection`,
not the `InvalidPeerInfo` error the claim names. -/
theorem parse_peer_address_no_at_counterexample :
    parse_peer_address ['x'] = .error .FailedPeerConnection ∧
    APIError.FailedPeerConnection.isInvalidPeerInfo = false :=
  ⟨rfl, rfl⟩

/-- C5 (amended): `parse_peer_address` fails whenever the at-split does
not yield exactly two parts, or the colon-split of the part after the at
sign does not yield exactly two parts — in both cases with
`FailedPeerConnection` — and fails with `InvalidPeerInfo` exactly when
the splits succeed but the port does not parse as a `u16`; in all other
cases it succeeds with the `(host, port)` pair. -/
theorem parse_peer_address_cases (s : List Char) :
    (s.count '@' ≠ 1 → parse_peer_address s = .error .FailedPeerConnection) ∧
    (∀ pre suf, '@' ∉ pre → '@' ∉ suf → s = pre ++ '@' :: suf →
      ((suf.count ':' ≠ 1 → parse_peer_address s = .error .FailedPeerConnection) ∧
       (∀ hst prt, ':' ∉ hst → ':' ∉ prt → suf = hst ++ ':' :: prt →
         ((parseU16 prt = none →
             parse_peer_address s = .error (.InvalidPeerInfo ("Invalid port in peer address"))) ∧
          (∀ p, parseU16 prt = some p → parse_peer_address s = .ok (hst, p)))))) := by
  constructor
  · intro hcnt
    have hlen : (s.splitOn '@').length ≠ 2 := by
      rw [length_splitOn]
      omega
    simp only [parse_peer_address]
    rw [if_pos hlen]
  · intro pre suf hpre hsuf hs
    subst hs
    rw [parse_peer_address_eval pre suf hpre hsuf]
    constructor
    · intro hcnt
      rw [if_pos]
      rw [length_splitOn]
      omega
    · intro hst prt hh hp hsp
      subst hsp
      rw [splitOn_append_cons hh prt, splitOn_of_not_mem hp]
      rw [if_neg (by simp)]
      simp only [List.getD_cons_succ, List.getD_cons_zero]
      constructor
      · intro hnone
        rw [hnone]
      · intro p hsome
        rw [hsome]

theorem parse_peer_address_cases_witness :
    parse_peer_address ['k', '@', 'h', ':', '8', '0'] = .ok (['h'], 80) := by
  have h := (parse_peer_address_cases ['k', '@', 'h', ':', '8', '0']).2
      ['k'] ['h', ':', '8', '0'] (by decide) (by decide) rfl
  exact (h.2 ['h'] ['8', '0'] (by decide) (by decide) rfl).2 80 (by decide)

/-- C8: parsing the canonical serialization `pubkey@host:port` of a
pubkey with no at sign, a host with neither at sign nor colon, and a
16-bit port recovers exactly that `(host, port)` pair. -/
theorem parse_serialize_roundtrip (pubkey hst : List Char) (port : Nat)
    (hpk : '@' ∉ pubkey) (hh1 : '@' ∉ hst) (hh2 : ':' ∉ hst) (hport : port ≤ 65535) :
    parse_peer_address (serialize_peer_address pubkey hst port) = .ok (hst, port) := by
  have hdig := toDecimal_mem_digit port
  have hd1 : '@' ∉ toDecimal port := fun hm => absurd (hdig _ hm) (by decide)
  have hd2 : ':' ∉ toDecimal port := fun hm => absurd (hdig _ hm) (by decide)
  have hsuf : '@' ∉ hst ++ ':' :: toDecimal port := by
    intro hm
    rcases List.mem_append.mp hm with h | h
    · exact hh1 h
    · rcases List.mem_cons.mp h with he | h
      · cases he
      · exact hd1 h
  rw [serialize_peer_address, parse_peer_address_eval pubkey _ hpk hsuf,
      splitOn_append_cons hh2 _, splitOn_of_not_mem hd2]
  rw [if_neg (by simp)]
  simp only [List.getD_cons_succ, List.getD_cons_zero]
  rw [parseU16_toDecimal port hport]

theorem parse_serialize_roundtrip_witness :
    parse_peer_address (serialize_peer_address ['k'] ['h'] 9735) = .ok (['h'], 9735) :=
  parse_serialize_roundtrip ['k'] ['h'] 9735 (by decide) (by decide) (by decide) (by decide)

/-- C9: an empty host between the at sign and the colon is accepted:
for a pubkey segment with no at sign and a port substring that parses as
a `u16`, `parse_peer_address` succeeds with the empty string as host. -/
theorem parse_empty_host (pre prt : List Char) (p : Nat)
    (hpre : '@' ∉ pre) (hp : parseU16 prt = some p) :
    parse_peer_address (pre ++ '@' :: ':' :: prt) = .ok ([], p) := by
  have hns := parseU16_not_sep hp
  have hsuf : '@' ∉ ':' :: prt := by
    intro hm
    rcases List.mem_cons.mp hm with he | h
    · cases he
    · exact hns.1 h
  rw [parse_peer_address_eval pre _ hpre hsuf]
  have hcolon : (':' :: prt).splitOn ':' = [[], prt] := by
    have h0 := splitOn_append_cons (show ':' ∉ ([] : List Char) by decide) prt
    rw [List.nil_append] at h0
    rw [h0, splitOn_of_not_mem hns.2]
  rw [hcolon]
  rw [if_neg (by simp)]
  simp only [List.getD_cons_succ, List.getD_cons_zero]
  rw [hp]

theorem parse_empty_host_witness :
    parse_peer_address ['k', '@', ':', '8'] = .ok ([], 8) := by
  exact parse_empty_host ['k'] ['8'] 8 (by decide) (by decide)

/-- C10: the pubkey segment before the at sign is never inspected: for
any two at-free pubkey segments and any common remainder, parsing yields
identical results. -/
theorem parse_ignores_pubkey_segment (p1 p2 s : List Char)
    (h1 : '@' ∉ p1) (h2 : '@' ∉ p2) :
    parse_peer_address (p1 ++ '@' :: s) = parse_peer_address (p2 ++ '@' :: s) := by
  simp only [parse_peer_address, splitOn_append_cons h1 s, splitOn_append_cons h2 s,
    List.length_cons, List.getD_cons_succ]

theorem parse_ignores_pubkey_segment_witness :
    parse_peer_address ['a', '@', 'h', ':', '8'] =
      parse_peer_address ['b', 'c', '@', 'h', ':', '8'] := by
  exact parse_ignores_pubkey_segment ['a'] ['b', 'c'] ['h', ':', '8'] (by decide) (by decide)

/-- C2: lifecycle monotonicity — once an invoice is terminal
(`Succeeded` or `Failed`) no operation changes it, and every operation
moves the status only along the allowed edges Pending→Held,
Held→Succeeded, Held→Failed, Pending→Failed (or leaves it unchanged). -/
theorem allowedEdge_refl (a : InvoiceStatus) : allowedEdge a a = true := by
  cases a <;> rfl

theorem invoice_status_monotonic (sha256 : Nat → Nat) (inv : HodlInvoice) (op : InvoiceOp) :
    (inv.status.isTerminal = true → runOp sha256 inv op = inv) ∧
    allowedEdge inv.status (runOp sha256 inv op).status = true := by
  constructor
  · intro ht
    have hne : inv.status ≠ .Held ∧ inv.status ≠ .Pending := by
      cases hst : inv.status <;> simp_all [InvoiceStatus.isTerminal]
    cases op with
    | settleOp p =>
      simp only [runOp, applyOp, settle]
      rw [if_pos hne.1]
    | cancelOp =>
      simp only [runOp, applyOp, cancel]
      rw [if_neg (by simp [hne.1, hne.2])]
    | holdOp hs =>
      simp only [runOp, applyOp, hold]
      rw [if_neg (by simp [hne.2])]
    | expireOp now =>
      simp only [runOp, applyOp, expire]
      rw [if_neg (by simp [hne.1, hne.2])]
  · cases op with
    | settleOp p =>
      simp only [runOp, applyOp, settle]
      by_cases h1 : inv.status ≠ .Held
      · rw [if_pos h1]
        exact allowedEdge_refl _
      · rw [if_neg h1]
        rw [not_not] at h1
        by_cases h2 : sha256 p ≠ inv.payment_hash
        · rw [if_pos h2]
          exact allowedEdge_refl _
        · rw [if_neg h2, h1]
          rfl
    | cancelOp =>
      simp only [runOp, applyOp, cancel]
      by_cases h1 : inv.status = .Pending ∨ inv.status = .Held
      · rw [if_pos h1]
        rcases h1 with h | h <;> rw [h] <;> rfl
      · rw [if_neg h1]
        exact allowedEdge_refl _
    | holdOp hs =>
      simp only [runOp, applyOp, hold]
      by_cases hc : inv.status = .Pending ∧ hs ≠ [] ∧ amountSatisfied inv.amount_msat hs = true
      · rw [if_pos hc, hc.1]
        rfl
      · rw [if_neg hc]
        exact allowedEdge_refl _
    | expireOp now =>
      simp only [runOp, applyOp, expire]
      by_cases hc : (inv.status = .Pending ∨ inv.status = .Held) ∧ inv.expiry < now
      · rw [if_pos hc]
        rcases hc.1 with h | h <;> rw [h] <;> rfl
      · rw [if_neg hc]
        exact allowedEdge_refl _

theorem invoice_status_monotonic_witness :
    runOp id ⟨1, none, 0, .Succeeded, []⟩ .cancelOp = ⟨1, none, 0, .Succeeded, []⟩ :=
  (invoice_status_monotonic id ⟨1, none, 0, .Succeeded, []⟩ .cancelOp).1 rfl

/-- C1 counterexample: on a `Pending` invoice a settle with a wrong
preimage is rejected with `InvalidInvoiceState`, not the
`InvalidPreimage` error the claim names for every invoice. -/
theorem settle_wrong_preimage_counterexample :
    settle Nat.succ ⟨7, none, 0, .Pending, []⟩ 0 = .error .InvalidInvoiceState ∧
    Nat.succ 0 ≠ 7 ∧
    APIError.InvalidInvoiceState ≠ APIError.InvalidPreimage :=
  ⟨rfl, by decide, by decide⟩

/-- C1 (amended): a settle whose preimage does not hash to the recorded
payment hash never succeeds and never mutates the invoice; on a `Held`
invoice the rejection is `InvalidPreimage` and the invoice remains
`Held` (on a non-`Held` invoice the rejection is the state error). -/
theorem settle_wrong_preimage (sha256 : Nat → Nat) (inv : HodlInvoice) (preimage : Nat)
    (hw : sha256 preimage ≠ inv.payment_hash) :
    (∀ inv2, settle sha256 inv preimage ≠ .ok inv2) ∧
    runOp sha256 inv (.settleOp preimage) = inv ∧
    (inv.status = .Held →
      settle sha256 inv preimage = .error .InvalidPreimage ∧
      (runOp sha256 inv (.settleOp preimage)).status = .Held) := by
  have hsettle : settle sha256 inv preimage = .error .InvalidInvoiceState ∨
      settle sha256 inv preimage = .error .InvalidPreimage := by
    rw [settle]
    by_cases hst : inv.status ≠ .Held
    · left
      rw [if_pos hst]
    · right
      rw [if_neg hst, if_pos hw]
  have hrun : runOp sha256 inv (.settleOp preimage) = inv := by
    rw [runOp, applyOp]
    rcases hsettle with h | h <;> rw [h]
  refine ⟨fun inv2 hok => ?_, hrun, fun hheld => ⟨?_, ?_⟩⟩
  · rcases hsettle with h | h <;> rw [h] at hok <;> cases hok
  · rw [settle, if_neg (by simp [hheld]), if_pos hw]
  · rw [hrun, hheld]

theorem settle_wrong_preimage_witness :
    settle Nat.succ ⟨7, none, 0, .Held, [(1, 5)]⟩ 0 = .error .InvalidPreimage ∧
    runOp Nat.succ ⟨7, none, 0, .Held, [(1, 5)]⟩ (.settleOp 0) = ⟨7, none, 0, .Held, [(1, 5)]⟩ := by
  have h := settle_wrong_preimage Nat.succ ⟨7, none, 0, .Held, [(1, 5)]⟩ 0 (by decide)
  exact ⟨(h.2.2 rfl).1, h.2.1⟩

/-- C3: a settle on a non-`Held` invoice — whatever the supplied
preimage, including the correct one — is rejected with
`InvalidInvoiceState`, an error of the client-error class. -/
theorem settle_non_held_rejected (sha256 : Nat → Nat) (inv : HodlInvoice) (preimage : Nat)
    (h : inv.status ≠ .Held) :
    settle sha256 inv preimage = .error .InvalidInvoiceState ∧
    errorClass .InvalidInvoiceState = ErrorClass.clientError := by
  refine ⟨?_, rfl⟩
  rw [settle, if_pos h]

theorem settle_non_held_rejected_witness :
    id 7 = (7 : Nat) ∧
    settle id ⟨7, none, 0, .Pending, []⟩ 7 = .error .InvalidInvoiceState ∧
    errorClass .InvalidInvoiceState = ErrorClass.clientError := by
  have h := settle_non_held_rejected id ⟨7, none, 0, .Pending, []⟩ 7 (by decide)
  exact ⟨rfl, h.1, h.2⟩
